import Mathlib

/-!
# Verification of the opentern opportunity-ingestion pipeline

Shallow embedding of the scraping route (`src/app/api/cron/scrape/route.ts`)
and the opportunities Convex module (`src/convex/opportunities.ts`).

Conventions of the embedding:
* JavaScript strings are Lean `String`s; most processing happens on `.data`
  (`List Char`), matching the per-code-point view of the JS regexes used
  (all relevant regexes use the `u` flag or stay in the BMP).
* `Date.now()` is a single `Int` parameter `now` (milliseconds since the Unix
  epoch); the handful of separate `Date.now()` calls inside one request are
  modelled as one instant, as the spec's "now at scrape time" does.
* `new Date(year, month, day).getTime()` is modelled as UTC midnight via
  proleptic-Gregorian day arithmetic (the deployment's server runs in UTC;
  the timezone offset is an environment detail outside the program text).
* JS regexes are modelled by specialised executable matchers, documented at
  each definition with the source regex.  Matching is leftmost, with lazy
  captures ending at the first terminator, which coincides with the JS
  backtracking semantics on the table rows these regexes are applied to.
* Code that throws a `TypeError` (property access on `undefined`) is
  modelled with `Except Unit`.
-/

/-! ## JS string primitives -/

/-- Whitespace recognised by JS `\s`, `String.prototype.trim` and friends
(WhiteSpace ∪ LineTerminator from ECMA-262). -/
def jsWhitespaceChar (c : Char) : Bool :=
  decide (c.toNat ∈ [0x9, 0xA, 0xB, 0xC, 0xD, 0x20, 0xA0, 0x1680,
    0x2000, 0x2001, 0x2002, 0x2003, 0x2004, 0x2005, 0x2006, 0x2007,
    0x2008, 0x2009, 0x200A, 0x2028, 0x2029, 0x202F, 0x205F, 0x3000, 0xFEFF])

/-- Drop the leading whitespace run (left half of `trim`). -/
def trimLeft (l : List Char) : List Char := l.dropWhile jsWhitespaceChar

/-- Drop the trailing whitespace run (right half of `trim`). -/
def trimRight : List Char → List Char
  | [] => []
  | c :: rest =>
    match trimRight rest with
    | [] => if jsWhitespaceChar c then [] else [c]
    | r => c :: r

/-- Model of `String.prototype.trim` on code-point lists. -/
def jsTrimList (l : List Char) : List Char := trimLeft (trimRight l)

/-- Model of `String.prototype.trim`. -/
def jsTrim (s : String) : String := String.mk (jsTrimList s.data)

/-- Model of `String.prototype.startsWith` (list form). -/
def startsWithList (pat l : List Char) : Bool := pat.isPrefixOf l

/-- Model of `String.prototype.includes` (list form). -/
def containsSub (pat : List Char) : List Char → Bool
  | [] => pat.isEmpty
  | l@(_ :: rest) => pat.isPrefixOf l || containsSub pat rest

/-- Model of `String.prototype.includes`. -/
def strIncludes (s pat : String) : Bool := containsSub pat.data s.data

/-- Model of `String.prototype.toLowerCase`; the parser only ever compares
the result against the ASCII words "company" and "name", for which the
ASCII lowering performed by `Char.toLower` agrees with JS. -/
def jsToLower (s : String) : String := String.mk (s.data.map Char.toLower)

/-- Model of `String.prototype.split` with a one-character separator
(empty pieces kept, as in JS). -/
def splitOnChar (sep : Char) : List Char → List (List Char)
  | [] => [[]]
  | c :: rest =>
    if c = sep then [] :: splitOnChar sep rest
    else
      match splitOnChar sep rest with
      | [] => [[c]]
      | g :: gs => (c :: g) :: gs

/-- Model of `content.split("\n")`. -/
def splitNl (l : List Char) : List (List Char) := splitOnChar '\n' l

/-- Digit test for the `\d` character class. -/
def isDigitChar (c : Char) : Bool := decide ('0' ≤ c ∧ c ≤ '9')

/-- Letter test for the `[A-Za-z]` character class. -/
def isAsciiLetter (c : Char) : Bool :=
  decide (('A' ≤ c ∧ c ≤ 'Z') ∨ ('a' ≤ c ∧ c ≤ 'z'))

/-- Numeric value of a digit string, as `parseInt` computes it on an
all-digit capture. -/
def natOfDigits (l : List Char) : Nat :=
  l.foldl (fun acc c => 10 * acc + (c.toNat - '0'.toNat)) 0

/-! ## removeEmojis (route.ts lines 172-177) -/

/-- Membership in the emoji character classes of the `emojiRegex` at
route.ts line 174: each alternative is a one-code-point class, so the
whole regex matches exactly the single characters accepted here. -/
def isEmojiChar (c : Char) : Bool :=
  let n := c.toNat
  decide ((0x1F600 ≤ n ∧ n ≤ 0x1F64F) ∨ (0x1F300 ≤ n ∧ n ≤ 0x1F5FF) ∨
    (0x1F680 ≤ n ∧ n ≤ 0x1F6FF) ∨ (0x1F1E0 ≤ n ∧ n ≤ 0x1F1FF) ∨
    (0x2600 ≤ n ∧ n ≤ 0x26FF) ∨ (0x2700 ≤ n ∧ n ≤ 0x27BF) ∨
    (0x1F900 ≤ n ∧ n ≤ 0x1F9FF) ∨ (0x1F018 ≤ n ∧ n ≤ 0x1F0F5) ∨
    (0x1F200 ≤ n ∧ n ≤ 0x1F2FF) ∨ (0x1FA70 ≤ n ∧ n ≤ 0x1FAFF) ∨
    n = 0x1F004 ∨ n = 0x1F0CF ∨ (0x1F170 ≤ n ∧ n ≤ 0x1F251))

/-- Model of `removeEmojis` (route.ts lines 172-177):
`text.replace(emojiRegex, "").trim()`. -/
def removeEmojis (text : String) : String :=
  jsTrim (String.mk (text.data.filter (fun c => !isEmojiChar c)))

/-! ## Calendar arithmetic

Models `new Date(year, month, day).getTime()` and
`new Date(now).getFullYear()` for the nonnegative timestamps the deployment
runs at, using the standard proleptic-Gregorian civil-date algorithms. -/

/-- Days from the civil epoch 1970-01-01 for year `y` (CE), 1-based month
`m1` and day `d`; `d` may exceed the month length or be `0`, rolling over
exactly as the JS `Date` constructor normalises it. -/
def daysFromCivil (y : Nat) (m1 : Nat) (d : Nat) : Int :=
  let yAdj := if m1 ≤ 2 then y - 1 else y
  let era := yAdj / 400
  let yoe := yAdj % 400
  let mp := if 2 < m1 then m1 - 3 else m1 + 9
  let doe := yoe * 365 + yoe / 4 - yoe / 100 + (153 * mp + 2) / 5
  (era * 146097 + doe : Int) + (d : Int) - 1 - 719468

/-- Milliseconds in a day. -/
def dayMs : Int := 86400000

/-- Model of `new Date(year, month0, day).getTime()` with `month0` the
0-based month produced by the parser's month map. -/
def mkDateMillis (y : Nat) (month0 : Nat) (d : Nat) : Int :=
  daysFromCivil y (month0 + 1) d * dayMs

/-- Civil year containing day number `z0` (days since 1970-01-01). -/
def civilYearFromDays (z0 : Nat) : Nat :=
  let z := z0 + 719468
  let era := z / 146097
  let doe := z % 146097
  let yoe := (doe - doe / 1460 + doe / 36524 - doe / 146096) / 365
  let y := yoe + era * 400
  let doy := doe - (365 * yoe + yoe / 4 - yoe / 100)
  let mp := (5 * doy + 2) / 153
  let m1 := if mp < 10 then mp + 3 else mp - 9
  if m1 ≤ 2 then y + 1 else y

/-- Model of `new Date().getFullYear()` at timestamp `now`, for the
nonnegative timestamps the job actually runs at. -/
def yearOfMillis (now : Int) : Nat :=
  civilYearFromDays (now.toNat / 86400000)

/-- The 14-day retention window, `14 * 24 * 60 * 60 * 1000` ms
(route.ts lines 300, 407, 551). -/
def retentionMs : Int := 14 * 24 * 60 * 60 * 1000

/-! ## Regex models

Each JS regex of the route is modelled by a specialised matcher.  Scanning
versions walk the string left to right, which matches the JS engine's
leftmost-match rule; lazy groups end at their first terminator. -/

/-- Index of the first occurrence of `pat` in a list, if any. -/
def idxOfSub (pat : List Char) : List Char → Option Nat
  | [] => if pat.isEmpty then some 0 else none
  | l@(_ :: rest) =>
    if pat.isPrefixOf l then some 0
    else (idxOfSub pat rest).map (· + 1)

/-- Attempt to match `<a[^>]*href="([^"]*)"[^>]*>` at the start of `l`;
returns the captured href and the remainder after the closing `>`. -/
def matchAnchorAt (l : List Char) : Option (String × List Char) :=
  if "<a".data.isPrefixOf l then
    let after := l.drop 2
    let pre := after.takeWhile (· ≠ '>')
    match idxOfSub "href=\"".data pre with
    | none => none
    | some i =>
      let afterHref := after.drop (i + 6)
      let url := afterHref.takeWhile (· ≠ '"')
      if url.length < afterHref.length then
        let rest1 := afterHref.drop (url.length + 1)
        let skip := rest1.takeWhile (· ≠ '>')
        if skip.length < rest1.length then
          some (String.mk url, rest1.drop (skip.length + 1))
        else none
      else none
  else none

/-- Scan for `/<a[^>]*href="([^"]*)"[^>]*>/` and return the first href. -/
def findHrefGo : Nat → List Char → Option String
  | 0, _ => none
  | _, [] => none
  | fuel + 1, l@(_ :: rest) =>
    match matchAnchorAt l with
    | some (url, _) => some url
    | none => findHrefGo fuel rest

/-- Model of `cell.match(/<a[^>]*href="([^"]*)"[^>]*>/)`, capture 1. -/
def findHref (s : String) : Option String := findHrefGo (s.data.length + 1) s.data

/-- Model of `cell.match(/<a[^>]*href="([^"]*)"[^>]*>([^<]+)<\/a>/)`:
captures (href, link text). -/
def findAnchorHrefTextGo : Nat → List Char → Option (String × String)
  | 0, _ => none
  | _, [] => none
  | fuel + 1, l@(_ :: rest) =>
    match matchAnchorAt l with
    | some (url, r) =>
      let text := r.takeWhile (· ≠ '<')
      if text ≠ [] ∧ "</a>".data.isPrefixOf (r.drop text.length) then
        some (url, String.mk text)
      else findAnchorHrefTextGo fuel rest
    | none => findAnchorHrefTextGo fuel rest

/-- Model of the company-cell link regex (route.ts lines 236-238, 491-493). -/
def findAnchorHrefText (s : String) : Option (String × String) :=
  findAnchorHrefTextGo (s.data.length + 1) s.data

/-- Find `pat` left of any newline (for lazy `.*?`, where `.` excludes
newlines); returns the remainder after the occurrence. -/
def findSubBeforeNl (pat : List Char) : List Char → Option (List Char)
  | [] => if pat.isEmpty then some [] else none
  | l@(c :: rest) =>
    if pat.isPrefixOf l then some (l.drop pat.length)
    else if c = '\n' then none
    else findSubBeforeNl pat rest

/-- Model of `cells[3].match(/<a[^>]*href="([^"]*)"[^>]*>.*?Apply.*?<\/a>/)`
(route.ts lines 507-509), capture 1. -/
def findApplyHrefGo : Nat → List Char → Option String
  | 0, _ => none
  | _, [] => none
  | fuel + 1, l@(_ :: rest) =>
    match matchAnchorAt l with
    | some (url, r) =>
      match findSubBeforeNl "Apply".data r with
      | some afterApply =>
        match findSubBeforeNl "</a>".data afterApply with
        | some _ => some url
        | none => findApplyHrefGo fuel rest
      | none => findApplyHrefGo fuel rest
    | none => findApplyHrefGo fuel rest

/-- Model of the "Apply"-labeled link match. -/
def findApplyHref (s : String) : Option String :=
  findApplyHrefGo (s.data.length + 1) s.data

/-- Model of `replace(/<[^>]*>/g, "")` (tag stripping, fuel = length). -/
def stripTagsGo : Nat → List Char → List Char
  | 0, _ => []
  | _, [] => []
  | fuel + 1, c :: rest =>
    if c = '<' ∧ rest.any (· = '>') then
      stripTagsGo fuel ((rest.dropWhile (· ≠ '>')).drop 1)
    else c :: stripTagsGo fuel rest

/-- Model of `cell.replace(/<[^>]*>/g, "")`. -/
def stripTags (s : String) : String := String.mk (stripTagsGo s.data.length s.data)

/-- Attempt to match `<br\s*\/?>` case-insensitively at the start of `l`. -/
def matchBrAt (l : List Char) : Option (List Char) :=
  match l with
  | '<' :: c1 :: c2 :: rest =>
    if (c1 = 'b' ∨ c1 = 'B') ∧ (c2 = 'r' ∨ c2 = 'R') then
      match rest.dropWhile jsWhitespaceChar with
      | '/' :: '>' :: r => some r
      | '>' :: r => some r
      | _ => none
    else none
  | _ => none

/-- Model of `location.replace(/<br\s*\/?>/gi, ", ")` (route.ts 316, 567). -/
def replaceBrGo : Nat → List Char → List Char
  | 0, _ => []
  | _, [] => []
  | fuel + 1, l@(c :: rest) =>
    match matchBrAt l with
    | some r => ',' :: ' ' :: replaceBrGo fuel r
    | none => c :: replaceBrGo fuel rest

/-- Model of the `<br>`-to-comma replacement on a location cell. -/
def replaceBr (s : String) : String := String.mk (replaceBrGo s.data.length s.data)

/-- Attempt `([A-Za-z]{3})\s+(\d{1,2})` at the start of `l`. -/
def monthDayAt (l : List Char) : Option (String × Nat) :=
  match l with
  | a :: b :: c :: rest =>
    if isAsciiLetter a ∧ isAsciiLetter b ∧ isAsciiLetter c then
      let ws := rest.takeWhile jsWhitespaceChar
      if ws ≠ [] then
        let ds := ((rest.drop ws.length).takeWhile isDigitChar).take 2
        if ds ≠ [] then some (String.mk [a, b, c], natOfDigits ds) else none
      else none
    else none
  | _ => none

/-- Model of `createdCell.match(/([A-Za-z]{3})\s+(\d{1,2})/)`
(route.ts 263, 370): captures (month abbreviation, day number). -/
def monthDayFind : Nat → List Char → Option (String × Nat)
  | 0, _ => none
  | _, [] => none
  | fuel + 1, l@(_ :: rest) =>
    match monthDayAt l with
    | some r => some r
    | none => monthDayFind fuel rest

/-- Model of the month-day date match on a string cell. -/
def monthDayMatch (s : String) : Option (String × Nat) :=
  monthDayFind (s.data.length + 1) s.data

/-- Attempt `(\d+)\s*([a-zA-Z]+)` at the start of `l`. -/
def relTokenAt (l : List Char) : Option (Nat × String) :=
  match l with
  | [] => none
  | c :: _ =>
    if isDigitChar c then
      let ds := l.takeWhile isDigitChar
      let after := l.drop ds.length
      let ws := after.takeWhile jsWhitespaceChar
      let ls := (after.drop ws.length).takeWhile isAsciiLetter
      if ls ≠ [] then some (natOfDigits ds, String.mk ls) else none
    else none

/-- Model of `createdCell.match(/(\d+)\s*([a-zA-Z]+)/)` (route.ts 524):
captures (integer value, unit letters). -/
def relTokenFind : Nat → List Char → Option (Nat × String)
  | 0, _ => none
  | _, [] => none
  | fuel + 1, l@(_ :: rest) =>
    match relTokenAt l with
    | some r => some r
    | none => relTokenFind fuel rest

/-- Model of the relative-date token match on a string cell. -/
def relTokenMatch (s : String) : Option (Nat × String) :=
  relTokenFind (s.data.length + 1) s.data

/-! ## HTML table-row scanner (tableRowRegex5, route.ts 218-219 and 470-471) -/

/-- The five captured cells of one `<tr>` row. -/
structure Row5 where
  c1 : String
  c2 : String
  c3 : String
  c4 : String
  c5 : String
deriving Repr, DecidableEq

/-- Capture a lazy `(.*?)` cell body up to the first `</td>`; fails if a
newline intervenes (`.` does not match newlines). -/
def cellEnd : List Char → Option (List Char × List Char)
  | [] => none
  | l@(c :: rest) =>
    if "</td>".data.isPrefixOf l then some ([], l.drop 5)
    else if c = '\n' then none
    else
      match cellEnd rest with
      | some (cell, r) => some (c :: cell, r)
      | none => none

/-- Attempt `<td[^>]*>(.*?)<\/td>` at the start of `l`. -/
def matchTdAt (l : List Char) : Option (List Char × List Char) :=
  if "<td".data.isPrefixOf l then
    let after := l.drop 3
    let attrs := after.takeWhile (· ≠ '>')
    if attrs.length < after.length then
      cellEnd (after.drop (attrs.length + 1))
    else none
  else none

/-- Attempt the whole `tableRowRegex5` pattern at the start of `l`:
`<tr>\s*` then five `<td[^>]*>(.*?)<\/td>\s*` cells then `<\/tr>`. -/
def matchRow5At (l : List Char) : Option (Row5 × List Char) :=
  if "<tr>".data.isPrefixOf l then
    match matchTdAt ((l.drop 4).dropWhile jsWhitespaceChar) with
    | none => none
    | some (c1, r1) =>
      match matchTdAt (r1.dropWhile jsWhitespaceChar) with
      | none => none
      | some (c2, r2) =>
        match matchTdAt (r2.dropWhile jsWhitespaceChar) with
        | none => none
        | some (c3, r3) =>
          match matchTdAt (r3.dropWhile jsWhitespaceChar) with
          | none => none
          | some (c4, r4) =>
            match matchTdAt (r4.dropWhile jsWhitespaceChar) with
            | none => none
            | some (c5, r5) =>
              let r5' := r5.dropWhile jsWhitespaceChar
              if "</tr>".data.isPrefixOf r5' then
                some (⟨String.mk c1, String.mk c2, String.mk c3,
                  String.mk c4, String.mk c5⟩, r5'.drop 5)
              else none
  else none

/-- Model of the repeated `tableRowRegex5.exec(content)` loop: all
non-overlapping leftmost matches, in order. -/
def scanRows5Go : Nat → List Char → List Row5
  | 0, _ => []
  | _, [] => []
  | fuel + 1, l@(_ :: rest) =>
    match matchRow5At l with
    | some (row, r) => row :: scanRows5Go fuel r
    | none => scanRows5Go fuel rest

/-- All 5-column HTML table rows of `content`. -/
def scanRows5 (content : String) : List Row5 :=
  scanRows5Go (content.data.length + 1) content.data

/-! ## The two extractors (route.ts `parseVansh`, `parseSimplify`)

The dead `currentSection` accumulator (it is computed but appears in no
emitted row and no return field) and the equally dead `categories` field
(every row lacks a `category`, so it is always a singleton set of
`undefined`) are omitted from the embedding. -/

/-- One emitted row (the objects pushed onto `internships`). -/
structure Internship where
  company : String
  title : String
  location : String
  applicationLink : String
  createdAt : Int
deriving Repr, DecidableEq

/-- Result of a parse: `totalInternships` plus the rows, mirroring the
returned object literal (route.ts 424-428, 573-577). -/
structure ParseResult where
  totalInternships : Nat
  internships : List Internship
deriving Repr, DecidableEq

/-- The month map of route.ts 269-282 (exact, case-sensitive keys). -/
def monthMap : String → Option Nat
  | "Jan" => some 0 | "Feb" => some 1 | "Mar" => some 2 | "Apr" => some 3
  | "May" => some 4 | "Jun" => some 5 | "Jul" => some 6 | "Aug" => some 7
  | "Sep" => some 8 | "Oct" => some 9 | "Nov" => some 10 | "Dec" => some 11
  | _ => none

/-- Absolute-date resolution of the vansh parser (route.ts 259-291 and
366-398): `Date.now()` unless a `"Sep 24"`-style token parses against a
known month, in which case the date is taken in the current year. -/
def vanshResolveDate (cell : String) (now : Int) : Int :=
  match monthDayMatch cell with
  | none => now
  | some (abbr, day) =>
    match monthMap abbr with
    | none => now
    | some m => mkDateMillis (yearOfMillis now) m day

/-- Relative-date resolution of the simplify parser (route.ts 520-542):
default six months ago; a `<integer><unit>` token resolves — after the
`relMatch[2].toLowerCase()` at route.ts 527 — `d` as days, `w` as weeks,
`mo` (or any other unit) as 30-day months. -/
def simplifyResolveDate (cell : String) (now : Int) : Int :=
  match relTokenMatch cell with
  | none => now - 180 * dayMs
  | some (value, rawUnit) =>
    let unit := jsToLower rawUnit
    let daysAgo : Nat :=
      if unit = "d" then value
      else if unit = "w" then value * 7
      else if unit = "mo" then value * 30
      else value * 30
    now - (daysAgo : Int) * dayMs

/-- The shared row-rejection predicate (route.ts 293-303, 400-409,
544-554): header heuristic, empty company/title, missing link, or a
resolved date older than the 14-day retention window. -/
def rowSkip (now : Int) (company title applicationLink : String)
    (createdAt : Int) : Bool :=
  strIncludes (jsToLower company) "company" ||
  strIncludes (jsToLower company) "name" ||
  jsTrim company == "" ||
  jsTrim title == "" ||
  jsTrim applicationLink == "" ||
  decide (createdAt < now - retentionMs)

/-- Continuation handling (route.ts 305-311, 359-364, 556-562): a `↳`
company repeats the last non-marker company when one exists; a non-marker
company becomes the new carry state.  Returns (resolved company, new
carry state). -/
def resolveContinuation (company lastCompany : String) : String × String :=
  if company = "↳" ∧ lastCompany ≠ "" then (lastCompany, lastCompany)
  else if company ≠ "↳" then (company, company)
  else ("↳", lastCompany)

/-- The fields computed for one row before the rejection check. -/
structure RowFields where
  company : String
  title : String
  location : String
  applicationLink : String
  createdAt : Int
deriving Repr, DecidableEq

/-- Per-row field extraction of the vansh HTML loop (route.ts 229-291):
company and tentative application link from the first cell's anchor,
fallback link from the fourth cell, absolute date from the fifth. -/
def vanshProcessRow (now : Int) (r : Row5) : RowFields :=
  let linkCompany :=
    match findAnchorHrefText r.c1 with
    | some (href, text) => (href, jsTrim text)
    | none => ("", jsTrim (stripTags r.c1))
  { company := linkCompany.2,
    title := removeEmojis (jsTrim (stripTags r.c2)),
    location := jsTrim (stripTags r.c3),
    applicationLink :=
      if linkCompany.1 = "" then
        match findHref r.c4 with
        | some href => href
        | none => ""
      else linkCompany.1,
    createdAt := vanshResolveDate r.c5 now }

/-- The accepted row pushed onto `internships` by the HTML loops
(route.ts 313-319, 564-570). -/
def pushedRow (f : RowFields) (actualCompany : String) : Internship :=
  { company := actualCompany, title := jsTrim f.title,
    location := jsTrim (replaceBr f.location),
    applicationLink := jsTrim f.applicationLink,
    createdAt := f.createdAt }

/-- The vansh HTML row loop (route.ts 224-320), carrying `lastCompany`. -/
def vanshRowsLoop (now : Int) (lastCompany : String) : List Row5 → List Internship
  | [] => []
  | r :: rest =>
    let f := vanshProcessRow now r
    if rowSkip now f.company f.title f.applicationLink f.createdAt then
      vanshRowsLoop now lastCompany rest
    else
      let rc := resolveContinuation (jsTrim f.company) lastCompany
      pushedRow f rc.1 :: vanshRowsLoop now rc.2 rest

/-- Model of `replace(/\[|\]/g, "")` (route.ts 413-415). -/
def stripBrackets (s : String) : String :=
  String.mk (s.data.filter (fun c => decide (c ≠ '[' ∧ c ≠ ']')))

/-- Markdown-fallback cell split (route.ts 339-342):
`line.split("|")`, trim each piece, keep the nonempty ones. -/
def mdCells (line : List Char) : List String :=
  (((splitOnChar '|' line).map jsTrimList).filter (· ≠ [])).map String.mk

/-- Last href found while scanning cells 3.. (route.ts 351-357; each later
match overwrites the earlier ones). -/
def lastHrefIn (cells : List String) : String :=
  cells.foldl
    (fun acc cell =>
      match findHref cell with
      | some href => href
      | none => acc) ""

/-- The markdown fallback loop (route.ts 326-421).  A guarded row with at
least three cells reads its date from `cells[4]`; when that cell does not
exist the JS code calls `.match` on `undefined` and throws, modelled as
`Except.error ()`. -/
def vanshFallbackLoop (now : Int) (lastCompany : String) :
    List (List Char) → Except Unit (List Internship)
  | [] => Except.ok []
  | l :: rest =>
    let line := jsTrimList l
    if startsWithList "### ".data line ∧ containsSub "Internship Roles".data line then
      vanshFallbackLoop now lastCompany rest
    else if startsWithList "|".data line ∧ containsSub "|".data line ∧
        ¬ containsSub "---".data line then
      let cells := mdCells line
      if 3 ≤ cells.length then
        let title := removeEmojis (cells.getD 1 "")
        let location := cells.getD 2 ""
        let applicationLink := lastHrefIn (cells.drop 3)
        let rc := resolveContinuation (cells.getD 0 "") lastCompany
        match cells.get? 4 with
        | none => Except.error ()
        | some createdCell =>
          let createdAt := vanshResolveDate createdCell now
          if rowSkip now rc.1 title applicationLink createdAt then
            vanshFallbackLoop now rc.2 rest
          else
            let row : Internship :=
              { company := stripBrackets rc.1,
                title := stripBrackets title,
                location := stripBrackets location,
                applicationLink := applicationLink,
                createdAt := createdAt }
            match vanshFallbackLoop now rc.2 rest with
            | Except.error e => Except.error e
            | Except.ok tl => Except.ok (row :: tl)
      else vanshFallbackLoop now lastCompany rest
    else vanshFallbackLoop now lastCompany rest

/-- Model of `parseVansh` (route.ts 196-429): HTML rows first, markdown
fallback when the HTML pass yields nothing. -/
def parseVansh (content : String) (now : Int) : Except Unit ParseResult :=
  let internships := vanshRowsLoop now "" (scanRows5 content)
  if internships.length = 0 then
    match vanshFallbackLoop now "" (splitNl content.data) with
    | Except.error e => Except.error e
    | Except.ok l => Except.ok ⟨l.length, l⟩
  else Except.ok ⟨internships.length, internships⟩

/-- Per-row field extraction of the simplify loop (route.ts 484-542):
company from the first cell's anchor text only; the application link
prefers the "Apply" link of the fourth cell, falling back to any link in
the first cell; relative date from the fifth cell. -/
def simplifyProcessRow (now : Int) (r : Row5) : RowFields :=
  { company :=
      match findAnchorHrefText r.c1 with
      | some (_, text) => jsTrim text
      | none => jsTrim (stripTags r.c1),
    title := removeEmojis (jsTrim (stripTags r.c2)),
    location := jsTrim (stripTags r.c3),
    applicationLink :=
      match findApplyHref r.c4 with
      | some href => href
      | none =>
        match findHref r.c1 with
        | some href => href
        | none => "",
    createdAt := simplifyResolveDate r.c5 now }

/-- The simplify row loop (route.ts 479-571). -/
def simplifyRowsLoop (now : Int) (lastCompany : String) :
    List Row5 → List Internship
  | [] => []
  | r :: rest =>
    let f := simplifyProcessRow now r
    if rowSkip now f.company f.title f.applicationLink f.createdAt then
      simplifyRowsLoop now lastCompany rest
    else
      let rc := resolveContinuation (jsTrim f.company) lastCompany
      pushedRow f rc.1 :: simplifyRowsLoop now rc.2 rest

/-- Model of `parseSimplify` (route.ts 448-578); there is no fallback
strategy (`tableRowRegex6` is defined but never executed). -/
def parseSimplify (content : String) (now : Int) : ParseResult :=
  let internships := simplifyRowsLoop now "" (scanRows5 content)
  ⟨internships.length, internships⟩

/-! ## Convex storage layer (src/convex/opportunities.ts)

The `opportunities` table is modelled as a `List Posting` in insertion
order; `ctx.db.query("opportunities").collect()` is the list itself, an
index equality lookup is a `filter`, and `ctx.db.insert` appends. -/

/-- A stored opportunities document (schema fields written by
`addOpportunities`). -/
structure Posting where
  company : String
  title : String
  location : Option String
  link : Option String
  source : String
  createdAt : Int
deriving Repr, DecidableEq

/-- An element of the `opportunities` argument array of
`addOpportunities` (validator at opportunities.ts 25-33). -/
structure Candidate where
  company : String
  title : String
  location : Option String
  applicationLink : Option String
  createdAt : Option Int
deriving Repr, DecidableEq

/-- The `(company, title)` identity key. -/
def postingKey (p : Posting) : String × String := (p.company, p.title)

/-- The `(company, title)` identity key of a candidate. -/
def candidateKey (c : Candidate) : String × String := (c.company, c.title)

/-- The `createdAt: opportunity.createdAt || now` field (opportunities.ts
line 62): JS `||` takes `now` when the field is absent or `0`. -/
def resolveCreatedAt (createdAt : Option Int) (now : Int) : Int :=
  match createdAt with
  | none => now
  | some t => if t = 0 then now else t

/-- The document built by the `ctx.db.insert` call (opportunities.ts
56-63). -/
def toPosting (source : String) (now : Int) (c : Candidate) : Posting :=
  { company := c.company, title := c.title, location := c.location,
    link := c.applicationLink, source := source,
    createdAt := resolveCreatedAt c.createdAt now }

/-- The duplicate test of the dedup filter (opportunities.ts 47-50). -/
def dbHasKey (db : List Posting) (c : Candidate) : Bool :=
  db.any (fun s => s.company == c.company && s.title == c.title)

/-- Model of the `addOpportunities` mutation handler (opportunities.ts
36-66): drop candidates whose `(company, title)` matches an existing
document, then insert the rest. -/
def addOpportunities (db : List Posting) (opportunities : List Candidate)
    (source : String) (now : Int) : List Posting :=
  let newOpportunities := opportunities.filter (fun c => ! dbHasKey db c)
  db ++ newOpportunities.map (toPosting source now)

/-- Model of `[...new Set(l)]`: first occurrences, in order. -/
def jsSetDedup : List String → List String
  | [] => []
  | c :: rest => c :: jsSetDedup (rest.filter (· ≠ c))
termination_by l => l.length
decreasing_by
  simp only [List.length_cons]
  exact Nat.lt_succ_of_le (List.length_filter_le _ _)

/-- Model of the `getCompanies` query (opportunities.ts 197-206). -/
def getCompanies (db : List Posting) : List String :=
  jsSetDedup (db.map (·.company))

/-- Page shape returned by the company-filter branch (opportunities.ts
131-135); the stringified-offset cursor is carried as its numeric value. -/
structure PageResult where
  page : List Posting
  isDone : Bool
  continueCursor : Option Nat
deriving Repr, DecidableEq

/-- Model of the `by_company` index lookup
`query("opportunities").withIndex("by_company", q.eq("company", c)).collect()`. -/
def byCompanyIndex (db : List Posting) (c : String) : List Posting :=
  db.filter (fun p => p.company == c)

/-- Stable insertion of one posting into a createdAt-descending list
(ties keep their existing order, as the ES2019+ stable `Array.sort`
does). -/
def insertDesc (a : Posting) : List Posting → List Posting
  | [] => [a]
  | q :: rest =>
    if a.createdAt < q.createdAt then q :: insertDesc a rest
    else a :: q :: rest

/-- Model of `.sort((a, b) => b.createdAt - a.createdAt)` (stable,
createdAt descending). -/
def sortDesc (l : List Posting) : List Posting := l.foldr insertDesc []

/-- Model of the company-filter branch of `getOpportunities`
(opportunities.ts 108-136), reached when no search term and no source are
given and the company list is nonempty: per-company index lookups,
flattened, sorted by createdAt descending, sliced at the numeric cursor
offset. -/
def getOpportunitiesByCompany (db : List Posting) (company : List String)
    (cursor : Option Nat) (numItems : Nat) : PageResult :=
  let flattened := sortDesc ((company.map (byCompanyIndex db)).flatten)
  let start := cursor.getD 0
  let stop := start + numItems
  { page := (flattened.drop start).take numItems,
    isDone := decide (flattened.length ≤ stop),
    continueCursor := if stop < flattened.length then some stop else none }

/-! ## Ingestion orchestrator (route.ts `GET`, lines 59-161)

Fetching a repository file is an external effect; each fetch is modelled
by an `Except Unit String` argument holding either the decoded content or
a failure.  The handler has no try/catch, so the embedding propagates
every failure, exactly as a thrown exception would abort the handler.
Inserts append in mutation-call order: the vansh batch first, then the
simplify batch. -/

/-- Candidate view of an emitted row, as mapped into the mutation argument
(route.ts 124-130, 136-142). -/
def internToCandidate (r : Internship) : Candidate :=
  { company := r.company, title := r.title, location := some r.location,
    applicationLink := some r.applicationLink, createdAt := some r.createdAt }

/-- Source tag of the first configured repository (`repos[0].owner`). -/
def vanshSource : String := "vanshb03"

/-- Source tag of the second configured repository (`repos[1].owner`). -/
def simplifySource : String := "SimplifyJobs"

/-- Model of the `GET` handler: fetch and parse the vansh source, fetch
and parse the simplify source, then run both `addOpportunities`
mutations; any failure aborts the whole invocation (there is no
per-source catch in the code).  Returns the final corpus. -/
def GETmodel (db : List Posting) (vanshFetch simplifyFetch : Except Unit String)
    (now : Int) : Except Unit (List Posting) :=
  match vanshFetch with
  | Except.error e => Except.error e
  | Except.ok vanshContent =>
    match parseVansh vanshContent now with
    | Except.error e => Except.error e
    | Except.ok vanshParsed =>
      match simplifyFetch with
      | Except.error e => Except.error e
      | Except.ok simplifyContent =>
        let simplifyParsed := parseSimplify simplifyContent now
        let db1 := addOpportunities db
          (vanshParsed.internships.map internToCandidate) vanshSource now
        Except.ok (addOpportunities db1
          (simplifyParsed.internships.map internToCandidate) simplifySource now)

/-- One orchestrator run in which both fetches succeed with the given
contents. -/
def ingestRun (db : List Posting) (vanshContent simplifyContent : String)
    (now : Int) : Except Unit (List Posting) :=
  GETmodel db (Except.ok vanshContent) (Except.ok simplifyContent) now

/-- A sequence of `addOpportunities` calls starting from the empty
corpus: each element is (candidate batch, source, now). -/
def runCalls (calls : List (List Candidate × String × Int)) : List Posting :=
  calls.foldl (fun db call => addOpportunities db call.1 call.2.1 call.2.2) []

/-! ## Concrete sample inputs used by scenario theorems and witnesses -/

/-- A sample scrape instant: 2025-10-01T00:00:00Z. -/
def sampleNow : Int := mkDateMillis 2025 9 1

/-- Scenario A raw content: one 5-column HTML row whose company cell is a
hyperlink, with an apply link in the 4th cell and date cell "Sep 24". -/
def vanshScenarioA : String :=
  "<tr><td><a href=\"https://x.co\">Acme</a></td><td>SWE Intern</td><td>NYC</td><td><a href='https://x.co/job'>apply</a></td><td>Sep 24</td></tr>"

/-- A well-formed simplify row dated "0d" (today), accepted by the
recency filter at any `now`. -/
def simplifyRowToday : String :=
  "<tr><td><a href=\"https://s.co\">Beta</a></td><td>Data Intern</td><td>SF</td><td><div><a href=\"https://j.co\">Apply</a></div></td><td>0d</td></tr>"

/-- A well-formed simplify row whose date cell is "20mo". -/
def simplifyRow20mo : String :=
  "<tr><td><a href=\"https://s.co\">Acme</a></td><td>SWE Intern</td><td>NYC</td><td><div><a href=\"https://j.co\">Apply</a></div></td><td>20mo</td></tr>"

/-- A markdown-table line with exactly three delimiter-separated fields. -/
def mdRow3Cells : String := "|a|b|c|"

/-- Decidable equality for `Except`, used to evaluate the embedding on
concrete inputs. -/
instance {ε α : Type} [DecidableEq ε] [DecidableEq α] :
    DecidableEq (Except ε α) := fun x y =>
  match x, y with
  | Except.error a, Except.error b =>
    if h : a = b then Decidable.isTrue (by rw [h])
    else Decidable.isFalse (by simp [h])
  | Except.ok a, Except.ok b =>
    if h : a = b then Decidable.isTrue (by rw [h])
    else Decidable.isFalse (by simp [h])
  | Except.error _, Except.ok _ => Decidable.isFalse (by simp)
  | Except.ok _, Except.error _ => Decidable.isFalse (by simp)

/-! ## C6: Scenario A extraction -/

set_option maxRecDepth 8000 in
/-- C6: on Scenario A content — a 5-column HTML row with company cell
`<a href="https://x.co">Acme</a>`, title "SWE Intern", location "NYC", an
apply link in the 4th cell and date cell "Sep 24" — scraped on
2025-10-01 (within 14 days of Sep 24 of that year, which `yearOfMillis`
resolves to 2025), `parseVansh` emits exactly one row with company
"Acme", title "SWE Intern", location "NYC", application link
"https://x.co" (the company-cell link target, not the 4th-cell link), and
`createdAt` equal to Sep 24 of the current year. -/
theorem scenarioA_extraction :
    parseVansh vanshScenarioA sampleNow =
      Except.ok ⟨1, [⟨"Acme", "SWE Intern", "NYC", "https://x.co",
        mkDateMillis 2025 8 24⟩]⟩ ∧
    yearOfMillis sampleNow = 2025 ∧
    sampleNow - mkDateMillis 2025 8 24 ≤ retentionMs := by
  refine ⟨by decide, by decide, by decide⟩

/-! ## C5: the fallback markdown path is not total -/

set_option maxRecDepth 8000 in
/-- C5 (divergence witness): on content whose HTML pass yields nothing and
whose only markdown row has three fields, `parseVansh` reads the absent
5th cell (`cells[4]` is `undefined` in JS) and throws, modelled as
`Except.error`; the row is not silently dropped. -/
theorem parseVansh_three_cell_row_throws :
    parseVansh mdRow3Cells 0 = Except.error () := by decide

/-! ## C4: a fetch failure aborts the whole invocation -/

set_option maxRecDepth 8000 in
/-- C4 (divergence witness): when the first source's fetch fails, the
handler — which has no per-source catch — aborts before the second
source's batch is ever inserted, even though that source's content is
fine and would have contributed one posting. -/
theorem fetch_failure_aborts_other_source :
    GETmodel [] (Except.error ()) (Except.ok simplifyRowToday) sampleNow =
      Except.error () ∧
    (parseSimplify simplifyRowToday sampleNow).internships.length = 1 := by
  refine ⟨rfl, by decide⟩

/-! ## C7: relative-date resolution and staleness rejection -/

lemma rowSkip_of_stale {now createdAt : Int} (c t l : String)
    (h : createdAt < now - retentionMs) : rowSkip now c t l createdAt = true := by
  simp [rowSkip, h]

set_option maxRecDepth 8000 in
/-- C7: the simplify date resolver lowercases the captured unit and maps
`<n>d` to `now - n` days, `<n>w` to `now - 7n` days, `<n>mo` and any
unknown unit to `now - 30n` days (so "2D" is 2 days and "1W" is 7 days
ago, not 30-day months), and an absent or unparsable token to 180 days
before `now`; a row dated "20mo" resolves 600 days into the past and is
rejected by the recency filter for every `now`, so it never reaches
insertion. -/
theorem simplifyRelativeDates (now : Int) :
    simplifyResolveDate "2d" now = now - 2 * dayMs ∧
    simplifyResolveDate "3w" now = now - 21 * dayMs ∧
    simplifyResolveDate "1mo" now = now - 30 * dayMs ∧
    simplifyResolveDate "2D" now = now - 2 * dayMs ∧
    simplifyResolveDate "1W" now = now - 7 * dayMs ∧
    simplifyResolveDate "3MO" now = now - 90 * dayMs ∧
    simplifyResolveDate "5y" now = now - 150 * dayMs ∧
    simplifyResolveDate "n/a" now = now - 180 * dayMs ∧
    simplifyResolveDate "" now = now - 180 * dayMs ∧
    simplifyResolveDate "20mo" now = now - 600 * dayMs ∧
    (parseSimplify simplifyRow20mo now).internships = [] := by
  refine ⟨rfl, rfl, rfl, rfl, rfl, rfl, rfl, rfl, rfl, rfl, ?_⟩
  have hrows : scanRows5 simplifyRow20mo =
      [⟨"<a href=\"https://s.co\">Acme</a>", "SWE Intern", "NYC",
        "<div><a href=\"https://j.co\">Apply</a></div>", "20mo"⟩] := by decide
  have hproc : simplifyProcessRow now
      (⟨"<a href=\"https://s.co\">Acme</a>", "SWE Intern", "NYC",
        "<div><a href=\"https://j.co\">Apply</a></div>", "20mo"⟩ : Row5) =
      ⟨"Acme", "SWE Intern", "NYC", "https://j.co", now - 600 * dayMs⟩ := rfl
  have hstale : now - 600 * dayMs < now - retentionMs := by
    simp only [dayMs, retentionMs]
    omega
  simp [parseSimplify, hrows, simplifyRowsLoop, hproc,
    rowSkip_of_stale _ _ _ hstale]

/-! ## C1: dedup invariant across addOpportunities calls -/

lemma dbHasKey_append (db more : List Posting) (c : Candidate) :
    dbHasKey (db ++ more) c = (dbHasKey db c || dbHasKey more c) := by
  simp [dbHasKey, List.any_append]

lemma dbHasKey_eq_false_iff (db : List Posting) (c : Candidate) :
    dbHasKey db c = false ↔ candidateKey c ∉ db.map postingKey := by
  simp [dbHasKey, List.any_eq_false, candidateKey, postingKey, Prod.ext_iff]

lemma addOpportunities_keys_nodup (db : List Posting) (cands : List Candidate)
    (source : String) (now : Int)
    (hdb : (db.map postingKey).Nodup) (hc : (cands.map candidateKey).Nodup) :
    ((addOpportunities db cands source now).map postingKey).Nodup := by
  unfold addOpportunities
  rw [List.map_append, List.map_map]
  have hkey : postingKey ∘ toPosting source now = candidateKey := by
    funext c; rfl
  rw [hkey]
  refine List.Nodup.append hdb
    (hc.sublist (List.Sublist.map _ (List.filter_sublist _))) ?_
  intro k hk1 hk2
  obtain ⟨c, hcmem, rfl⟩ := List.mem_map.1 hk2
  have hrej := (List.mem_filter.1 hcmem).2
  have hfalse : dbHasKey db c = false := by
    simpa using hrej
  exact (dbHasKey_eq_false_iff db c).1 hfalse hk1

/-- C1 (counterexample): one `addOpportunities` call on the empty corpus
whose batch holds two candidates with the same `(company, title)` inserts
both — the dedup filter only consults the pre-existing corpus, not the
batch itself — so the claimed invariant fails after this call sequence. -/
theorem dup_batch_breaks_key_uniqueness :
    ¬ (((runCalls [([⟨"A", "T", none, none, some 1⟩,
        ⟨"A", "T", none, none, some 1⟩], "s", 0)]).map postingKey).Nodup) := by
  decide

/-- C1 (amended): starting from the empty corpus, after any sequence of
`addOpportunities` calls in which no single batch contains two candidates
sharing a `(company, title)` key, all postings in the corpus have
pairwise-distinct `(company, title)` keys: each call discards exactly the
candidates whose key matches an existing posting of any source. -/
theorem corpus_keys_nodup (calls : List (List Candidate × String × Int))
    (h : ∀ b ∈ calls, ((b.1.map candidateKey).Nodup)) :
    ((runCalls calls).map postingKey).Nodup := by
  suffices H : ∀ (cs : List (List Candidate × String × Int)) (db : List Posting),
      (db.map postingKey).Nodup →
      (∀ b ∈ cs, ((b.1.map candidateKey).Nodup)) →
      (((cs.foldl (fun db call =>
        addOpportunities db call.1 call.2.1 call.2.2) db)).map postingKey).Nodup by
    exact H calls [] (by simp) h
  intro cs
  induction cs with
  | nil => intro db hdb _; simpa using hdb
  | cons b rest ih =>
    intro db hdb hbs
    rw [List.foldl_cons]
    exact ih _ (addOpportunities_keys_nodup _ _ _ _ hdb (hbs b (by simp)))
      (fun b' hb' => hbs b' (by simp [hb']))

/-- C1 (witness): a concrete two-candidate batch with distinct keys
satisfies the batch hypothesis and yields a duplicate-free corpus. -/
theorem corpus_keys_nodup_witness :
    (∀ b ∈ [([(⟨"A", "T", none, none, some 1⟩ : Candidate),
        ⟨"B", "T", none, none, some 2⟩], "s", (0 : Int))],
      ((b.1.map candidateKey).Nodup)) ∧
    ((runCalls [([⟨"A", "T", none, none, some 1⟩,
        ⟨"B", "T", none, none, some 2⟩], "s", 0)]).map postingKey).Nodup :=
  ⟨by decide, corpus_keys_nodup _ (by decide)⟩

/-! ## C2: idempotence of the orchestrator on unchanged content -/

lemma dbHasKey_mono (db more : List Posting) (c : Candidate)
    (h : dbHasKey db c = true) : dbHasKey (db ++ more) c = true := by
  rw [dbHasKey_append, h, Bool.true_or]

lemma mem_keys_addOpportunities (db : List Posting) (cands : List Candidate)
    (source : String) (now : Int) (c : Candidate) (hc : c ∈ cands) :
    dbHasKey (addOpportunities db cands source now) c = true := by
  unfold addOpportunities
  rw [dbHasKey_append]
  cases h : dbHasKey db c with
  | true => rw [Bool.true_or]
  | false =>
    rw [Bool.false_or]
    have hmem : toPosting source now c ∈
        (cands.filter (fun c => ! dbHasKey db c)).map (toPosting source now) :=
      List.mem_map_of_mem _ (List.mem_filter.2 ⟨hc, by rw [h]; rfl⟩)
    exact List.any_eq_true.2 ⟨toPosting source now c, hmem, by
      simp [toPosting]⟩

lemma addOpportunities_all_dup (db : List Posting) (cands : List Candidate)
    (source : String) (now : Int)
    (h : ∀ c ∈ cands, dbHasKey db c = true) :
    addOpportunities db cands source now = db := by
  unfold addOpportunities
  have hnil : cands.filter (fun c => ! dbHasKey db c) = [] :=
    List.filter_eq_nil_iff.2 (fun c hc => by simp [h c hc])
  rw [hnil]
  simp

/-- C2: if one orchestrator run over contents `(v, s)` succeeds and
produces corpus `db1`, a second run over the same contents at the same
instant also succeeds and returns a corpus of the same size with the same
distinct-company list (indeed the identical corpus): every candidate of
the second run matches an existing `(company, title)` pair and is
discarded by the dedup gate. -/
theorem ingest_idempotent (db : List Posting)
    (vanshContent simplifyContent : String) (now : Int) (db1 : List Posting)
    (h : ingestRun db vanshContent simplifyContent now = Except.ok db1) :
    ∃ db2, ingestRun db1 vanshContent simplifyContent now = Except.ok db2 ∧
      db2 = db1 ∧ db2.length = db1.length ∧
      getCompanies db2 = getCompanies db1 := by
  have hrun : ∀ (d : List Posting), ingestRun d vanshContent simplifyContent now =
      match parseVansh vanshContent now with
      | Except.error e => Except.error e
      | Except.ok vres =>
        Except.ok (addOpportunities
          (addOpportunities d (vres.internships.map internToCandidate)
            vanshSource now)
          ((parseSimplify simplifyContent now).internships.map internToCandidate)
          simplifySource now) := fun _ => rfl
  rw [hrun] at h
  rw [hrun]
  cases hv : parseVansh vanshContent now with
  | error e => rw [hv] at h; exact absurd h (by simp)
  | ok vres =>
    rw [hv] at h
    simp only [Except.ok.injEq] at h
    set vc := vres.internships.map internToCandidate with hvc
    set sc := (parseSimplify simplifyContent now).internships.map
      internToCandidate with hsc
    have hdb1 : db1 = addOpportunities
        (addOpportunities db vc vanshSource now) sc simplifySource now := h.symm
    have hA : ∀ c ∈ vc, dbHasKey db1 c = true := by
      intro c hc
      rw [hdb1]
      show dbHasKey (addOpportunities db vc vanshSource now ++ _) c = true
      exact dbHasKey_mono _ _ _ (mem_keys_addOpportunities db vc _ now c hc)
    have hB : ∀ c ∈ sc, dbHasKey db1 c = true := by
      intro c hc
      rw [hdb1]
      exact mem_keys_addOpportunities _ sc _ now c hc
    refine ⟨db1, ?_, rfl, rfl, rfl⟩
    show Except.ok (addOpportunities (addOpportunities db1 vc vanshSource now)
      sc simplifySource now) = Except.ok db1
    rw [addOpportunities_all_dup db1 vc vanshSource now hA,
      addOpportunities_all_dup db1 sc simplifySource now hB]

/-- Corpus produced by one sample run over Scenario A content and the
"0d" simplify row at `sampleNow`. -/
def ingestSample : List Posting :=
  [⟨"Acme", "SWE Intern", some "NYC", some "https://x.co", vanshSource,
    mkDateMillis 2025 8 24⟩,
   ⟨"Beta", "Data Intern", some "SF", some "https://j.co", simplifySource,
    sampleNow⟩]

set_option maxRecDepth 8000 in
/-- C2 (witness): a concrete first run produces `ingestSample`, and the
theorem applies to it. -/
theorem ingest_idempotent_witness :
    ingestRun [] vanshScenarioA simplifyRowToday sampleNow =
      Except.ok ingestSample ∧
    ∃ db2, ingestRun ingestSample vanshScenarioA simplifyRowToday sampleNow =
        Except.ok db2 ∧
      db2 = ingestSample ∧ db2.length = ingestSample.length ∧
      getCompanies db2 = getCompanies ingestSample :=
  ⟨by decide, ingest_idempotent [] _ _ _ ingestSample (by decide)⟩

/-! ## C3: the 14-day retention invariant -/

lemma retentionMs_nonneg : (0 : Int) ≤ retentionMs := by decide

lemma rowSkip_false_le {now createdAt : Int} {c t l : String}
    (h : rowSkip now c t l createdAt = false) :
    now - createdAt ≤ retentionMs := by
  simp only [rowSkip, Bool.or_eq_false_iff, decide_eq_false_iff_not,
    not_lt] at h
  have := h.2
  omega

lemma vanshRowsLoop_recency (now : Int) (rows : List Row5) :
    ∀ (lc : String) (r : Internship), r ∈ vanshRowsLoop now lc rows →
      now - r.createdAt ≤ retentionMs := by
  induction rows with
  | nil => intro lc r hr; simp [vanshRowsLoop] at hr
  | cons row rest ih =>
    intro lc r hr
    simp only [vanshRowsLoop] at hr
    split at hr
    · exact ih lc r hr
    · rcases List.mem_cons.1 hr with rfl | hmem
      · rename_i hskip
        simp only [Bool.not_eq_true] at hskip
        dsimp only [pushedRow]
        exact rowSkip_false_le hskip
      · exact ih _ r hmem

lemma simplifyRowsLoop_recency (now : Int) (rows : List Row5) :
    ∀ (lc : String) (r : Internship), r ∈ simplifyRowsLoop now lc rows →
      now - r.createdAt ≤ retentionMs := by
  induction rows with
  | nil => intro lc r hr; simp [simplifyRowsLoop] at hr
  | cons row rest ih =>
    intro lc r hr
    simp only [simplifyRowsLoop] at hr
    split at hr
    · exact ih lc r hr
    · rcases List.mem_cons.1 hr with rfl | hmem
      · rename_i hskip
        simp only [Bool.not_eq_true] at hskip
        dsimp only [pushedRow]
        exact rowSkip_false_le hskip
      · exact ih _ r hmem

lemma vanshFallbackLoop_recency (now : Int) (lines : List (List Char)) :
    ∀ (lc : String) (out : List Internship),
      vanshFallbackLoop now lc lines = Except.ok out →
      ∀ r ∈ out, now - r.createdAt ≤ retentionMs := by
  induction lines with
  | nil =>
    intro lc out h r hr
    simp only [vanshFallbackLoop, Except.ok.injEq] at h
    subst h
    simp at hr
  | cons l rest ih =>
    intro lc out h r hr
    simp only [vanshFallbackLoop] at h
    split at h
    · exact ih _ _ h r hr
    · split at h
      · split at h
        · split at h
          · exact absurd h (by simp)
          · split at h
            · exact ih _ _ h r hr
            · rename_i hskip heq
              split at h
              · exact absurd h (by simp)
              · rename_i tl htl
                simp only [Except.ok.injEq] at h
                subst h
                rcases List.mem_cons.1 hr with rfl | hmem
                · dsimp only
                  exact rowSkip_false_le (Bool.eq_false_iff.2 heq)
                · exact ih _ _ htl r hmem
        · exact ih _ _ h r hr
      · exact ih _ _ h r hr

lemma parseVansh_recency (content : String) (now : Int) (res : ParseResult)
    (h : parseVansh content now = Except.ok res) :
    ∀ r ∈ res.internships, now - r.createdAt ≤ retentionMs := by
  unfold parseVansh at h
  by_cases hlen : (vanshRowsLoop now "" (scanRows5 content)).length = 0
  · rw [if_pos hlen] at h
    cases hout : vanshFallbackLoop now "" (splitNl content.data) with
    | error e => rw [hout] at h; exact absurd h (by simp)
    | ok out =>
      rw [hout] at h
      simp only [Except.ok.injEq] at h
      subst h
      exact fun r hr => vanshFallbackLoop_recency now _ "" out hout r hr
  · rw [if_neg hlen] at h
    simp only [Except.ok.injEq] at h
    subst h
    exact fun r hr => vanshRowsLoop_recency now _ "" r hr

lemma parseSimplify_recency (content : String) (now : Int) :
    ∀ r ∈ (parseSimplify content now).internships,
      now - r.createdAt ≤ retentionMs :=
  fun r hr => simplifyRowsLoop_recency now _ "" r hr

lemma addOpportunities_eq_append (db : List Posting) (cands : List Candidate)
    (source : String) (now : Int) :
    addOpportunities db cands source now =
      db ++ (cands.filter (fun c => ! dbHasKey db c)).map (toPosting source now) :=
  rfl

lemma mem_inserted (db : List Posting) (cands : List Candidate)
    (source : String) (now : Int) (p : Posting)
    (hp : p ∈ (cands.filter (fun c => ! dbHasKey db c)).map (toPosting source now)) :
    ∃ c ∈ cands, p = toPosting source now c := by
  obtain ⟨c, hc, rfl⟩ := List.mem_map.1 hp
  exact ⟨c, (List.mem_filter.1 hc).1, rfl⟩

lemma toPosting_recency (source : String) (now : Int) (r : Internship)
    (hr : now - r.createdAt ≤ retentionMs) :
    now - (toPosting source now (internToCandidate r)).createdAt ≤ retentionMs := by
  simp only [toPosting, internToCandidate, resolveCreatedAt]
  split
  · have := retentionMs_nonneg
    omega
  · exact hr

/-- C3: every posting inserted by one orchestrator run satisfies
`now - createdAt ≤ 14 days` at the instant of the run: both extractors
reject any row whose resolved date is older than 14 days before `now`,
and the mutation inserts each surviving row with its resolved date (or
`now` itself when that date is the falsy `0`). -/
theorem ingest_recency (db : List Posting)
    (vanshContent simplifyContent : String) (now : Int) (db2 : List Posting)
    (h : ingestRun db vanshContent simplifyContent now = Except.ok db2) :
    ∀ p ∈ db2.drop db.length, now - p.createdAt ≤ retentionMs := by
  have hrun : ingestRun db vanshContent simplifyContent now =
      match parseVansh vanshContent now with
      | Except.error e => Except.error e
      | Except.ok vres =>
        Except.ok (addOpportunities
          (addOpportunities db (vres.internships.map internToCandidate)
            vanshSource now)
          ((parseSimplify simplifyContent now).internships.map internToCandidate)
          simplifySource now) := rfl
  rw [hrun] at h
  cases hv : parseVansh vanshContent now with
  | error e => rw [hv] at h; exact absurd h (by simp)
  | ok vres =>
    rw [hv] at h
    simp only [Except.ok.injEq] at h
    subst h
    intro p hp
    rw [addOpportunities_eq_append
        (addOpportunities db (vres.internships.map internToCandidate)
          vanshSource now),
      addOpportunities_eq_append db, List.append_assoc, List.drop_left] at hp
    rcases List.mem_append.1 hp with hmem | hmem
    · obtain ⟨c, hc, rfl⟩ := mem_inserted _ _ _ _ _ hmem
      obtain ⟨r, hrmem, rfl⟩ := List.mem_map.1 hc
      exact toPosting_recency _ now r (parseVansh_recency _ now vres hv r hrmem)
    · obtain ⟨c, hc, rfl⟩ := mem_inserted _ _ _ _ _ hmem
      obtain ⟨r, hrmem, rfl⟩ := List.mem_map.1 hc
      exact toPosting_recency _ now r
        (parseSimplify_recency simplifyContent now r hrmem)

set_option maxRecDepth 8000 in
/-- C3 (witness): the theorem applied to a concrete run inserting the
Scenario A posting. -/
theorem ingest_recency_witness :
    sampleNow - (Posting.mk "Acme" "SWE Intern" (some "NYC")
      (some "https://x.co") vanshSource (mkDateMillis 2025 8 24)).createdAt ≤
      retentionMs :=
  ingest_recency [] vanshScenarioA simplifyRowToday sampleNow ingestSample
    (by decide) _ (by decide)

/-! ## C10: createdAt resolution in addOpportunities -/

/-- C10: every record inserted by `addOpportunities` carries its
candidate's `company` and `title`, and its `createdAt` is the candidate's
`createdAt` whenever that field is present and nonzero; when the field is
absent or `0` (both falsy under JS `||`), the inserted `createdAt` is the
mutation's current time. -/
theorem addOpportunities_createdAt_spec (db : List Posting)
    (cands : List Candidate) (source : String) (now : Int) (p : Posting)
    (hp : p ∈ (addOpportunities db cands source now).drop db.length) :
    ∃ c ∈ cands, p.company = c.company ∧ p.title = c.title ∧
      ((∃ t, c.createdAt = some t ∧ t ≠ 0 ∧ p.createdAt = t) ∨
       ((c.createdAt = none ∨ c.createdAt = some 0) ∧ p.createdAt = now)) := by
  rw [addOpportunities_eq_append, List.drop_left] at hp
  obtain ⟨c, hc, rfl⟩ := mem_inserted _ _ _ _ _ hp
  refine ⟨c, hc, rfl, rfl, ?_⟩
  cases hca : c.createdAt with
  | none =>
    exact Or.inr ⟨Or.inl rfl, by simp [toPosting, resolveCreatedAt, hca]⟩
  | some t =>
    by_cases ht : t = 0
    · subst ht
      exact Or.inr ⟨Or.inr rfl, by simp [toPosting, resolveCreatedAt, hca]⟩
    · exact Or.inl ⟨t, rfl, ht, by simp [toPosting, resolveCreatedAt, hca, ht]⟩

/-- C10 (witness): the theorem applied to one inserted record. -/
theorem addOpportunities_createdAt_witness :
    ∃ c ∈ [(⟨"A", "T", none, none, some 5⟩ : Candidate)],
      (Posting.mk "A" "T" none none "s" 5).company = c.company ∧
      (Posting.mk "A" "T" none none "s" 5).title = c.title ∧
      ((∃ t, c.createdAt = some t ∧ t ≠ 0 ∧
        (Posting.mk "A" "T" none none "s" 5).createdAt = t) ∨
       ((c.createdAt = none ∨ c.createdAt = some 0) ∧
        (Posting.mk "A" "T" none none "s" 5).createdAt = 7)) :=
  addOpportunities_createdAt_spec [] _ "s" 7 _ (by decide)

/-! ## C9: the text normalizer -/

lemma dropWhile_dropWhile (p : Char → Bool) (l : List Char) :
    List.dropWhile p (List.dropWhile p l) = List.dropWhile p l := by
  induction l with
  | nil => rfl
  | cons c rest ih =>
    by_cases h : p c
    · simp [List.dropWhile_cons, h, ih]
    · simp [List.dropWhile_cons, h]

lemma trimRight_cons_eq (c : Char) (t : List Char) :
    trimRight (c :: t) =
      match trimRight t with
      | [] => if jsWhitespaceChar c then [] else [c]
      | r => c :: r := rfl

lemma trimRight_idem (l : List Char) : trimRight (trimRight l) = trimRight l := by
  induction l with
  | nil => rfl
  | cons c rest ih =>
    cases h : trimRight rest with
    | nil =>
      by_cases hc : jsWhitespaceChar c
      · simp [trimRight, h, hc]
      · simp [trimRight, h, hc]
    | cons x xs =>
      have hr : trimRight (x :: xs) = x :: xs := by rw [← h]; exact ih
      have hstep : trimRight (c :: rest) = c :: x :: xs := by
        rw [trimRight_cons_eq, h]
      rw [hstep, trimRight_cons_eq, hr]

lemma mem_trimRight {a : Char} : ∀ {l : List Char}, a ∈ trimRight l → a ∈ l := by
  intro l
  induction l with
  | nil => intro h; simp [trimRight] at h
  | cons c rest ih =>
    intro h
    cases hr : trimRight rest with
    | nil =>
      rw [trimRight, hr] at h
      by_cases hc : jsWhitespaceChar c
      · simp [hc] at h
      · simp [hc] at h
        simp [h]
    | cons x xs =>
      rw [trimRight, hr] at h
      rcases List.mem_cons.1 h with rfl | hmem
      · exact List.mem_cons_self _ _
      · exact List.mem_cons_of_mem _ (ih (hr ▸ hmem))

lemma trimRight_trimLeft_comm (l : List Char) :
    trimRight (trimLeft l) = trimLeft (trimRight l) := by
  induction l with
  | nil => rfl
  | cons c rest ih =>
    by_cases hc : jsWhitespaceChar c
    · have hleft : trimLeft (c :: rest) = trimLeft rest := by
        simp [trimLeft, List.dropWhile_cons, hc]
      cases hr : trimRight rest with
      | nil =>
        rw [hleft, ih, hr]
        simp [trimRight, hr, hc, trimLeft]
      | cons x xs =>
        rw [hleft, ih, hr]
        have : trimRight (c :: rest) = c :: x :: xs := by simp [trimRight, hr]
        rw [this]
        simp [trimLeft, List.dropWhile_cons, hc]
    · have hleft : trimLeft (c :: rest) = c :: rest := by
        simp [trimLeft, List.dropWhile_cons, hc]
      rw [hleft]
      cases hr : trimRight rest with
      | nil =>
        have : trimRight (c :: rest) = [c] := by simp [trimRight, hr, hc]
        rw [this]
        simp [trimLeft, List.dropWhile_cons, hc]
      | cons x xs =>
        have : trimRight (c :: rest) = c :: x :: xs := by simp [trimRight, hr]
        rw [this]
        simp [trimLeft, List.dropWhile_cons, hc]

lemma jsTrimList_idem (l : List Char) :
    jsTrimList (jsTrimList l) = jsTrimList l := by
  unfold jsTrimList
  rw [trimRight_trimLeft_comm (trimRight l), trimRight_idem]
  show trimLeft (trimLeft (trimRight l)) = trimLeft (trimRight l)
  unfold trimLeft
  exact dropWhile_dropWhile _ _

lemma mem_jsTrimList {a : Char} {l : List Char} (h : a ∈ jsTrimList l) :
    a ∈ l := by
  unfold jsTrimList trimLeft at h
  exact mem_trimRight ((List.dropWhile_sublist _).subset h)

lemma isEmojiChar_of_ascii {c : Char} (h : c.toNat ≤ 127) :
    isEmojiChar c = false := by
  simp only [isEmojiChar, decide_eq_false_iff_not]
  omega

lemma removeEmojis_idem (s : String) :
    removeEmojis (removeEmojis s) = removeEmojis s := by
  unfold removeEmojis jsTrim
  show String.mk (jsTrimList ((jsTrimList
      (s.data.filter (fun c => !isEmojiChar c))).filter
        (fun c => !isEmojiChar c))) = _
  have hfilter : (jsTrimList (s.data.filter (fun c => !isEmojiChar c))).filter
      (fun c => !isEmojiChar c) =
      jsTrimList (s.data.filter (fun c => !isEmojiChar c)) :=
    List.filter_eq_self.mpr (fun c hc =>
      (List.mem_filter.1 (mem_jsTrimList hc)).2)
  rw [hfilter, jsTrimList_idem]

/-- C9 (counterexample): the normalizer is not a no-op on every ASCII-only
string — it trims, so `" a"` maps to `"a"`. -/
theorem removeEmojis_not_id_on_ascii : ¬ (removeEmojis " a" = " a") := by
  decide

/-- C9 (amended): the normalizer is a total pure function that removes
all emoji code points and then trims; it is idempotent; it is a no-op on
ASCII text that carries no leading or trailing whitespace (trimming makes
it alter other ASCII strings); a fully-emoji input yields the empty
string; and embedded emoji are removed with the surrounding text and
interior spacing preserved. -/
theorem removeEmojis_spec :
    (∀ s, removeEmojis (removeEmojis s) = removeEmojis s) ∧
    (∀ s, (∀ c ∈ s.data, c.toNat ≤ 127) → jsTrim s = s → removeEmojis s = s) ∧
    (∀ s, (∀ c ∈ s.data, isEmojiChar c = true) → removeEmojis s = "") ∧
    removeEmojis "Dev 🚀 Intern" = "Dev  Intern" := by
  refine ⟨removeEmojis_idem, ?_, ?_, by decide⟩
  · intro s hascii htrim
    unfold removeEmojis
    have hfilter : s.data.filter (fun c => !isEmojiChar c) = s.data :=
      List.filter_eq_self.mpr (fun c hc => by
        rw [isEmojiChar_of_ascii (hascii c hc)]; rfl)
    rw [hfilter]
    exact htrim
  · intro s hemoji
    unfold removeEmojis
    have hfilter : s.data.filter (fun c => !isEmojiChar c) = [] :=
      List.filter_eq_nil_iff.mpr (fun c hc => by simp [hemoji c hc])
    rw [hfilter]
    rfl

/-- C9 (witness): the amended theorem applied at concrete strings. -/
theorem removeEmojis_spec_witness :
    removeEmojis (removeEmojis "a b") = removeEmojis "a b" ∧
    ((∀ c ∈ ("a b" : String).data, c.toNat ≤ 127) ∧ jsTrim "a b" = "a b" ∧
      removeEmojis "a b" = "a b") ∧
    ((∀ c ∈ ("😀" : String).data, isEmojiChar c = true) ∧
      removeEmojis "😀" = "") :=
  ⟨removeEmojis_spec.1 "a b",
   ⟨by decide, by decide, removeEmojis_spec.2.1 "a b" (by decide) (by decide)⟩,
   ⟨by decide, removeEmojis_spec.2.2.1 "😀" (by decide)⟩⟩

/-! ## C8: the company-filter query branch -/

lemma insertDesc_perm (a : Posting) (l : List Posting) :
    (insertDesc a l).Perm (a :: l) := by
  induction l with
  | nil => exact List.Perm.refl _
  | cons q rest ih =>
    rw [insertDesc]
    split
    · exact (ih.cons q).trans (List.Perm.swap a q rest)
    · exact List.Perm.refl _

lemma sortDesc_perm (l : List Posting) : (sortDesc l).Perm l := by
  induction l with
  | nil => exact List.Perm.refl _
  | cons a rest ih =>
    exact (insertDesc_perm a (sortDesc rest)).trans (ih.cons a)

lemma insertDesc_pairwise (a : Posting) (l : List Posting)
    (h : List.Pairwise (fun x y => y.createdAt ≤ x.createdAt) l) :
    List.Pairwise (fun x y => y.createdAt ≤ x.createdAt) (insertDesc a l) := by
  induction l with
  | nil => simp [insertDesc]
  | cons q rest ih =>
    rw [insertDesc]
    split
    · rename_i hlt
      refine List.Pairwise.cons ?_ (ih (List.pairwise_cons.1 h).2)
      intro x hx
      rcases List.mem_cons.1 ((insertDesc_perm a rest).mem_iff.1 hx) with
        rfl | hxrest
      · omega
      · exact (List.pairwise_cons.1 h).1 x hxrest
    · rename_i hge
      refine List.Pairwise.cons ?_ h
      intro x hx
      rcases List.mem_cons.1 hx with rfl | hxrest
      · omega
      · have := (List.pairwise_cons.1 h).1 x hxrest
        omega

lemma sortDesc_pairwise (l : List Posting) :
    List.Pairwise (fun x y => y.createdAt ≤ x.createdAt) (sortDesc l) := by
  induction l with
  | nil => simp [sortDesc]
  | cons a rest ih => exact insertDesc_pairwise a (sortDesc rest) ih

lemma filter_company_cons_perm (db : List Posting) (c : String)
    (rest : List String) (hc : c ∉ rest) :
    (db.filter (fun p => decide (p.company ∈ c :: rest))).Perm
      (db.filter (fun p => p.company == c) ++
        db.filter (fun p => decide (p.company ∈ rest))) := by
  induction db with
  | nil => exact List.Perm.refl _
  | cons p db' ih =>
    simp only [List.filter_cons]
    by_cases h1 : p.company = c
    · rw [if_pos (show decide (p.company ∈ c :: rest) = true by simp [h1]),
        if_pos (show (p.company == c) = true by simp [h1]),
        if_neg (show ¬ decide (p.company ∈ rest) = true by simp [h1, hc]),
        List.cons_append]
      exact ih.cons p
    · by_cases h2 : p.company ∈ rest
      · rw [if_pos (show decide (p.company ∈ c :: rest) = true by simp [h2]),
          if_neg (show ¬ (p.company == c) = true by simp [h1]),
          if_pos (show decide (p.company ∈ rest) = true by simp [h2])]
        exact (ih.cons p).trans List.perm_middle.symm
      · rw [if_neg (show ¬ decide (p.company ∈ c :: rest) = true by
            simp [h1, h2]),
          if_neg (show ¬ (p.company == c) = true by simp [h1]),
          if_neg (show ¬ decide (p.company ∈ rest) = true by simp [h2])]
        exact ih

lemma flatten_byCompany_perm (db : List Posting) (companies : List String)
    (h : companies.Nodup) :
    ((companies.map (byCompanyIndex db)).flatten).Perm
      (db.filter (fun p => decide (p.company ∈ companies))) := by
  induction companies with
  | nil => simp
  | cons c rest ih =>
    have hc : c ∉ rest := (List.nodup_cons.1 h).1
    have hrest := (List.nodup_cons.1 h).2
    simp only [List.map_cons, List.flatten_cons]
    exact (((ih hrest).append_left (byCompanyIndex db c))).trans
      (filter_company_cons_perm db c rest hc).symm

/-- C8: with no search term and no source but a non-empty, duplicate-free
company list, the company branch of `getOpportunities` returns a page
whose members all belong to the requested companies (a listed company
with no postings contributes nothing), sorted by `createdAt` descending;
the page is the slice of a createdAt-descending ordering of exactly the
matching postings starting at the cursor offset and `numItems` long; and
`isDone` holds exactly when that slice reaches the end of the matches. -/
theorem getOpportunitiesByCompany_spec (db : List Posting)
    (company : List String) (cursor : Option Nat) (numItems : Nat)
    (_hne : company ≠ []) (hnd : company.Nodup) :
    (∀ p ∈ (getOpportunitiesByCompany db company cursor numItems).page,
      p.company ∈ company) ∧
    List.Pairwise (fun a b => b.createdAt ≤ a.createdAt)
      (getOpportunitiesByCompany db company cursor numItems).page ∧
    (∃ l, l.Perm (db.filter (fun p => decide (p.company ∈ company))) ∧
      List.Pairwise (fun a b => b.createdAt ≤ a.createdAt) l ∧
      (getOpportunitiesByCompany db company cursor numItems).page =
        (l.drop (cursor.getD 0)).take numItems) ∧
    ((getOpportunitiesByCompany db company cursor numItems).isDone = true ↔
      (db.filter (fun p => decide (p.company ∈ company))).length ≤
        cursor.getD 0 + numItems) := by
  have hperm : (sortDesc ((company.map (byCompanyIndex db)).flatten)).Perm
      (db.filter (fun p => decide (p.company ∈ company))) :=
    (sortDesc_perm _).trans (flatten_byCompany_perm db company hnd)
  have hsorted := sortDesc_pairwise ((company.map (byCompanyIndex db)).flatten)
  have hpage : (getOpportunitiesByCompany db company cursor numItems).page =
      ((sortDesc ((company.map (byCompanyIndex db)).flatten)).drop
        (cursor.getD 0)).take numItems := rfl
  have hsub : List.Sublist
      (((sortDesc ((company.map (byCompanyIndex db)).flatten)).drop
        (cursor.getD 0)).take numItems)
      (sortDesc ((company.map (byCompanyIndex db)).flatten)) :=
    List.Sublist.trans (List.take_sublist _ _) (List.drop_sublist _ _)
  refine ⟨?_, ?_, ⟨_, hperm, hsorted, hpage⟩, ?_⟩
  · intro p hp
    rw [hpage] at hp
    have hmem := hperm.mem_iff.1 (hsub.subset hp)
    exact of_decide_eq_true (List.mem_filter.1 hmem).2
  · rw [hpage]
    exact hsorted.sublist hsub
  · have hdone : (getOpportunitiesByCompany db company cursor numItems).isDone =
        decide ((sortDesc ((company.map (byCompanyIndex db)).flatten)).length ≤
          cursor.getD 0 + numItems) := rfl
    rw [hdone, hperm.length_eq]
    exact decide_eq_true_iff

/-- Scenario E corpus: Acme and Initech postings, none for Globex. -/
def dbScenarioE : List Posting :=
  [⟨"Acme", "T1", none, none, "s", 5⟩, ⟨"Initech", "T0", none, none, "s", 9⟩,
   ⟨"Acme", "T2", none, none, "s", 3⟩]

/-- C8 (witness): the theorem applied to Scenario E — companies
`["Acme", "Globex"]` with no Globex postings — plus the concrete page,
which holds only the Acme postings in createdAt-descending order. -/
theorem getOpportunitiesByCompany_witness :
    ((["Acme", "Globex"] : List String) ≠ [] ∧
      (["Acme", "Globex"] : List String).Nodup) ∧
    ((∀ p ∈ (getOpportunitiesByCompany dbScenarioE ["Acme", "Globex"]
        none 10).page, p.company ∈ (["Acme", "Globex"] : List String)) ∧
      List.Pairwise (fun a b => b.createdAt ≤ a.createdAt)
        (getOpportunitiesByCompany dbScenarioE ["Acme", "Globex"]
          none 10).page ∧
      (∃ l, l.Perm (dbScenarioE.filter
          (fun p => decide (p.company ∈ (["Acme", "Globex"] : List String)))) ∧
        List.Pairwise (fun a b => b.createdAt ≤ a.createdAt) l ∧
        (getOpportunitiesByCompany dbScenarioE ["Acme", "Globex"]
            none 10).page =
          (l.drop ((none : Option Nat).getD 0)).take 10) ∧
      ((getOpportunitiesByCompany dbScenarioE ["Acme", "Globex"]
          none 10).isDone = true ↔
        (dbScenarioE.filter (fun p =>
          decide (p.company ∈ (["Acme", "Globex"] : List String)))).length ≤
          (none : Option Nat).getD 0 + 10)) ∧
    (getOpportunitiesByCompany dbScenarioE ["Acme", "Globex"] none 10).page =
      [⟨"Acme", "T1", none, none, "s", 5⟩, ⟨"Acme", "T2", none, none, "s", 3⟩] :=
  ⟨⟨by decide, by decide⟩,
   getOpportunitiesByCompany_spec dbScenarioE _ none 10 (by decide) (by decide),
   by decide⟩
